import Mathlib

/-!
Verification of the LV2 GPU sort interface of MEGAHIT's SDBG builder
(`src/lv2_gpu_functions.h`).

The repository ships only the header declaring `cuda_init`, `get_cuda_memory`
and `lv2_gpu_sort (edge_word_t *lv2_substrings, uint32_t *permutation,
int words_per_substring, int64_t lv2_num_items)`; the implementations live in
a CUDA translation unit that is not part of the sources.  The behavioural
definitions below are therefore modelled from the specification's words
(each is marked `Modelled from the spec:`); the type-level facts come from
the header itself.

A substring record is a list of machine words (`edge_word_t` values, modelled
as `Nat`); an input batch is a list of such records.  The sort produces a
permutation of the original indices, not a reordered copy of the records.
-/

namespace Megahit

/-- Modelled from the spec: word-wise lexicographic strict comparison of two
substring records, word 0 most significant (missing from src: the comparator
used by the CUDA sort kernel). -/
def wordLexLt : List Nat → List Nat → Bool
  | _, [] => false
  | [], _ :: _ => true
  | a :: as, b :: bs => decide (a < b) || (a == b && wordLexLt as bs)

/-- Non-strict word-wise lexicographic comparison. -/
def wordLexLe (a b : List Nat) : Bool :=
  wordLexLt a b || a == b

theorem wordLexLt_irrefl (a : List Nat) : wordLexLt a a = false := by
  induction a with
  | nil => rfl
  | cons x xs ih => simp [wordLexLt, ih]

theorem wordLexLt_trans :
    ∀ (a b c : List Nat), wordLexLt a b = true → wordLexLt b c = true →
      wordLexLt a c = true
  | _, [], _, hab, _ => by simp [wordLexLt] at hab
  | [], _ :: _, [], _, hbc => by simp [wordLexLt] at hbc
  | [], _ :: _, _ :: _, _, _ => by simp [wordLexLt]
  | _ :: _, _ :: _, [], _, hbc => by simp [wordLexLt] at hbc
  | a :: as, b :: bs, c :: cs, hab, hbc => by
    simp only [wordLexLt, Bool.or_eq_true, Bool.and_eq_true, decide_eq_true_eq,
      beq_iff_eq] at hab hbc ⊢
    rcases hab with h1 | ⟨rfl, h1⟩
    · rcases hbc with h2 | ⟨rfl, h2⟩
      · exact Or.inl (h1.trans h2)
      · exact Or.inl h1
    · rcases hbc with h2 | ⟨rfl, h2⟩
      · exact Or.inl h2
      · exact Or.inr ⟨rfl, wordLexLt_trans as bs cs h1 h2⟩

theorem wordLexLt_total :
    ∀ (a b : List Nat), wordLexLt a b = true ∨ a = b ∨ wordLexLt b a = true
  | [], [] => Or.inr (Or.inl rfl)
  | [], _ :: _ => Or.inl (by simp [wordLexLt])
  | _ :: _, [] => Or.inr (Or.inr (by simp [wordLexLt]))
  | a :: as, b :: bs => by
    rcases Nat.lt_trichotomy a b with h | rfl | h
    · exact Or.inl (by simp [wordLexLt, h])
    · rcases wordLexLt_total as bs with h | h | h
      · exact Or.inl (by simp [wordLexLt, h])
      · exact Or.inr (Or.inl (by rw [h]))
      · exact Or.inr (Or.inr (by simp [wordLexLt, h]))
    · exact Or.inr (Or.inr (by simp [wordLexLt, h]))

theorem wordLexLt_asymm {a b : List Nat}
    (hab : wordLexLt a b = true) (hba : wordLexLt b a = true) : False := by
  have := wordLexLt_trans a b a hab hba
  rw [wordLexLt_irrefl] at this
  exact Bool.false_ne_true this

/-- Modelled from the spec: the key order used by the sort — word-wise
lexicographic on the records, ties across all words broken by the original
input index (stable sort semantics).  Indices outside the batch read an empty
record. -/
def keyLe (subs : List (List Nat)) (i j : Nat) : Bool :=
  wordLexLt (subs.getD i []) (subs.getD j []) ||
    (subs.getD i [] == subs.getD j [] && decide (i ≤ j))

theorem keyLe_total (subs : List (List Nat)) (i j : Nat) :
    keyLe subs i j = true ∨ keyLe subs j i = true := by
  simp only [keyLe, Bool.or_eq_true, Bool.and_eq_true, decide_eq_true_eq,
    beq_iff_eq]
  rcases wordLexLt_total (subs.getD i []) (subs.getD j []) with h | h | h
  · exact Or.inl (Or.inl h)
  · rcases Nat.le_total i j with hle | hle
    · exact Or.inl (Or.inr ⟨h, hle⟩)
    · exact Or.inr (Or.inr ⟨h.symm, hle⟩)
  · exact Or.inr (Or.inl h)

theorem keyLe_trans (subs : List (List Nat)) (i j k : Nat)
    (hij : keyLe subs i j = true) (hjk : keyLe subs j k = true) :
    keyLe subs i k = true := by
  simp only [keyLe, Bool.or_eq_true, Bool.and_eq_true, decide_eq_true_eq,
    beq_iff_eq] at hij hjk ⊢
  rcases hij with h1 | ⟨he1, h1⟩
  · rcases hjk with h2 | ⟨he2, h2⟩
    · exact Or.inl (wordLexLt_trans _ _ _ h1 h2)
    · exact Or.inl (he2 ▸ h1)
  · rcases hjk with h2 | ⟨he2, h2⟩
    · exact Or.inl (he1 ▸ h2)
    · exact Or.inr ⟨he1.trans he2, h1.trans h2⟩

/-- Modelled from the spec: `lv2_gpu_sort` computes the index permutation of
the batch — the list of original indices ordered so that the records read in
that order are word-wise lexicographically non-decreasing, with ties broken by
original index (missing from src: the CUDA implementation of the declared
`lv2_gpu_sort` entry point). -/
def lv2_gpu_sort (subs : List (List Nat)) : List Nat :=
  (List.range subs.length).insertionSort (fun i j => keyLe subs i j = true)

/-- From the header: `edge_word_t` is a fixed-size machine word; its byte size
(4, a 32-bit word in the SDBG builder). -/
def sizeof_edge_word : Nat := 4

/-- From the header: each permutation entry is a `uint32_t`, 4 bytes. -/
def sizeof_perm_entry : Nat := 4

/-- Modelled from the spec: the device footprint of one record — its
`words_per_substring` input words, its permutation entry, and one working
buffer of the same size class as the input (missing from src: the device
memory accounting of the CUDA implementation). -/
def per_record_footprint (words_per_substring : Nat) : Nat :=
  words_per_substring * sizeof_edge_word + sizeof_perm_entry +
    words_per_substring * sizeof_edge_word

/-- Modelled from the spec: the configurable safety fraction of free device
memory the planner may use, written as numerator over denominator (9/10,
leaving headroom for driver overhead). -/
def safety_num : Nat := 9

/-- Denominator of the safety fraction. -/
def safety_den : Nat := 10

/-- Modelled from the spec: the Budget Planner — a pure function of
`free_bytes`, `words_per_substring` and `lv2_num_items` returning the largest
chunk of records whose device footprint fits in the safety-scaled fraction of
free memory, or `none` (`InsufficientDeviceMemory`) when not even one record
fits or the batch is empty (missing from src: the chunk-planning code of the
CUDA implementation). -/
def budget_plan (free_bytes words_per_substring lv2_num_items : Nat) :
    Option Nat :=
  let fp := per_record_footprint words_per_substring
  let budget := free_bytes * safety_num / safety_den
  if 1 ≤ lv2_num_items ∧ 1 ≤ budget / fp then
    some (min lv2_num_items (budget / fp))
  else
    none

/-- Error conditions of the sort path. -/
inductive SortError where
  | InsufficientDeviceMemory
deriving DecidableEq

/-- The two caller-owned buffers passed to `lv2_gpu_sort`: the substring
records and the permutation output buffer. -/
structure SortBuffers where
  lv2_substrings : List (List Nat)
  permutation : List Nat
deriving DecidableEq

/-- Modelled from the spec: the full `lv2_gpu_sort` call as a transformer of
the caller's buffers given the observed free device memory.  An empty batch
is a no-op without error; a batch the planner rejects signals
`InsufficientDeviceMemory` with no entry of the permutation buffer written;
otherwise the permutation buffer receives the sorted index permutation and
the substring buffer is left untouched (missing from src: the CUDA
implementation of the declared `lv2_gpu_sort` entry point). -/
def lv2_gpu_sort_call (free_bytes words_per_substring : Nat)
    (bufs : SortBuffers) : Option SortError × SortBuffers :=
  if bufs.lv2_substrings.isEmpty then
    (none, bufs)
  else
    match budget_plan free_bytes words_per_substring
        bufs.lv2_substrings.length with
    | none => (some SortError.InsufficientDeviceMemory, bufs)
    | some _ =>
      (none, { bufs with permutation := lv2_gpu_sort bufs.lv2_substrings })

/-- From the header: the number of values a `uint32_t` permutation entry can
take. -/
def uint32_card : Nat := 2 ^ 32

/-- A permutation output (a list of `uint32_t`-representable entries) that
names every original index of a batch of `n` records: it has one entry per
record, every entry fits in 32 bits, and every original index appears. -/
def names_all_indices (n : Nat) (p : List Nat) : Prop :=
  p.length = n ∧ (∀ x ∈ p, x < uint32_card) ∧ ∀ i < n, i ∈ p

theorem lv2_gpu_sort_perm_range (subs : List (List Nat)) :
    (lv2_gpu_sort subs).Perm (List.range subs.length) :=
  List.perm_insertionSort _ _

theorem lv2_gpu_sort_sorted_key (subs : List (List Nat)) :
    List.Sorted (fun i j => keyLe subs i j = true) (lv2_gpu_sort subs) := by
  haveI : IsTotal Nat (fun i j => keyLe subs i j = true) := ⟨keyLe_total subs⟩
  haveI : IsTrans Nat (fun i j => keyLe subs i j = true) :=
    ⟨fun i j k => keyLe_trans subs i j k⟩
  exact List.sorted_insertionSort _ _

theorem per_record_footprint_pos (words_per_substring : Nat) :
    0 < per_record_footprint words_per_substring := by
  unfold per_record_footprint sizeof_perm_entry
  omega

theorem budget_le_free (free_bytes : Nat) :
    free_bytes * safety_num / safety_den ≤ free_bytes := by
  have h : free_bytes * safety_num ≤ free_bytes * safety_den :=
    Nat.mul_le_mul_left _ (by decide)
  calc free_bytes * safety_num / safety_den
      ≤ free_bytes * safety_den / safety_den := Nat.div_le_div_right h
    _ = free_bytes := Nat.mul_div_cancel _ (by decide)

/-- Claim C1: for every valid input batch (each record `words_per_substring`
words wide), `lv2_gpu_sort` writes a permutation such that reading the input
records in permutation order yields a sequence that is non-decreasing under
word-wise lexicographic comparison. -/
theorem lv2_gpu_sort_sorts (subs : List (List Nat)) (words_per_substring : Nat)
    (_hvalid : ∀ r ∈ subs, r.length = words_per_substring) :
    List.Sorted (fun a b => wordLexLe a b = true)
      ((lv2_gpu_sort subs).map (fun i => subs.getD i [])) := by
  have hs : List.Pairwise (fun i j => keyLe subs i j = true) (lv2_gpu_sort subs) :=
    lv2_gpu_sort_sorted_key subs
  refine List.pairwise_map.2 (hs.imp ?_)
  intro i j hij
  simp only [keyLe, Bool.or_eq_true, Bool.and_eq_true, decide_eq_true_eq,
    beq_iff_eq] at hij
  simp only [wordLexLe, Bool.or_eq_true, beq_iff_eq]
  rcases hij with h | ⟨h, _⟩
  · exact Or.inl h
  · exact Or.inr h

/-- Witness for C1 at the spec's concrete scenario input. -/
theorem lv2_gpu_sort_sorts_witness :
    List.Sorted (fun a b => wordLexLe a b = true)
      ((lv2_gpu_sort [[5], [1], [4], [1]]).map
        (fun i => List.getD [[5], [1], [4], [1]] i [])) :=
  lv2_gpu_sort_sorts [[5], [1], [4], [1]] 1 (by decide)

/-- Claim C2: the sort is stable — records with equal key words keep their
original relative order (the smaller original index comes first), and the
result is identical across repeated runs on identical input. -/
theorem lv2_gpu_sort_stable (subs : List (List Nat)) (i j : Nat)
    (hij : i < j) (hj : j < subs.length)
    (heq : subs.getD i [] = subs.getD j []) :
    (lv2_gpu_sort subs).indexOf i < (lv2_gpu_sort subs).indexOf j ∧
      ∀ subs2, subs2 = subs → lv2_gpu_sort subs2 = lv2_gpu_sort subs := by
  refine ⟨?_, fun subs2 h => by rw [h]⟩
  have hperm := lv2_gpu_sort_perm_range subs
  have hi : i ∈ lv2_gpu_sort subs :=
    hperm.mem_iff.2 (List.mem_range.2 (hij.trans hj))
  have hjm : j ∈ lv2_gpu_sort subs := hperm.mem_iff.2 (List.mem_range.2 hj)
  have hil : (lv2_gpu_sort subs).indexOf i < (lv2_gpu_sort subs).length :=
    List.indexOf_lt_length.2 hi
  have hjl : (lv2_gpu_sort subs).indexOf j < (lv2_gpu_sort subs).length :=
    List.indexOf_lt_length.2 hjm
  by_contra hcon
  push_neg at hcon
  have hne : (lv2_gpu_sort subs).indexOf j ≠ (lv2_gpu_sort subs).indexOf i := by
    intro h
    have h1 : (lv2_gpu_sort subs)[(lv2_gpu_sort subs).indexOf i]? = some i :=
      List.getElem?_indexOf hi
    have h2 : (lv2_gpu_sort subs)[(lv2_gpu_sort subs).indexOf j]? = some j :=
      List.getElem?_indexOf hjm
    rw [h, h1] at h2
    exact Nat.lt_irrefl i (Option.some_injective _ h2 ▸ hij)
  have hlt : (lv2_gpu_sort subs).indexOf j < (lv2_gpu_sort subs).indexOf i :=
    lt_of_le_of_ne hcon hne
  have hpw : List.Pairwise (fun a b => keyLe subs a b = true)
      (lv2_gpu_sort subs) := lv2_gpu_sort_sorted_key subs
  have hkey := List.pairwise_iff_getElem.1 hpw _ _ hjl hil hlt
  rw [List.getElem_indexOf hjl, List.getElem_indexOf hil] at hkey
  simp only [keyLe, heq, wordLexLt_irrefl, Bool.false_or, Bool.and_eq_true,
    decide_eq_true_eq, beq_iff_eq] at hkey
  omega

/-- Witness for C2: in the spec's scenario the equal keys at original
indices 1 and 3 appear in that order. -/
theorem lv2_gpu_sort_stable_witness :
    (lv2_gpu_sort [[5], [1], [4], [1]]).indexOf 1 <
      (lv2_gpu_sort [[5], [1], [4], [1]]).indexOf 3 :=
  (lv2_gpu_sort_stable [[5], [1], [4], [1]] 1 3 (by decide) (by decide)
    (by decide)).1

/-- Claim C3: the output of `lv2_gpu_sort` is a bijection on
`[0, lv2_num_items)` — it has one entry per record and every index in that
range appears exactly once. -/
theorem lv2_gpu_sort_bijection (subs : List (List Nat)) :
    (lv2_gpu_sort subs).length = subs.length ∧
      ∀ k < subs.length, (lv2_gpu_sort subs).count k = 1 := by
  have hperm := lv2_gpu_sort_perm_range subs
  constructor
  · simpa using hperm.length_eq
  · intro k hk
    have hmem : k ∈ lv2_gpu_sort subs := hperm.mem_iff.2 (List.mem_range.2 hk)
    have hnd : (lv2_gpu_sort subs).Nodup :=
      hperm.nodup_iff.2 (List.nodup_range subs.length)
    exact List.count_eq_one_of_mem hnd hmem

/-- Witness for C3 at the spec's concrete scenario input. -/
theorem lv2_gpu_sort_bijection_witness :
    (lv2_gpu_sort [[5], [1], [4], [1]]).count 2 = 1 :=
  (lv2_gpu_sort_bijection [[5], [1], [4], [1]]).2 2 (by decide)

/-- Claim C4: the call never modifies the caller's input record buffer — the
substring buffer after the call equals the buffer before it, on every path. -/
theorem lv2_gpu_sort_call_preserves_input (free_bytes words_per_substring : Nat)
    (bufs : SortBuffers) :
    (lv2_gpu_sort_call free_bytes words_per_substring bufs).2.lv2_substrings =
      bufs.lv2_substrings := by
  unfold lv2_gpu_sort_call
  split
  · rfl
  · split <;> rfl

/-- Claim C5: a chunk authorized by the Budget Planner fits within the
safety-scaled fraction of free memory, and in particular never exceeds the
observed free memory itself. -/
theorem budget_plan_within_budget
    (free_bytes words_per_substring lv2_num_items chunk : Nat)
    (h : budget_plan free_bytes words_per_substring lv2_num_items =
      some chunk) :
    chunk * per_record_footprint words_per_substring ≤
        free_bytes * safety_num / safety_den ∧
      chunk * per_record_footprint words_per_substring ≤ free_bytes := by
  unfold budget_plan at h
  simp only [] at h
  split at h
  · have hchunk : chunk ≤ free_bytes * safety_num / safety_den /
        per_record_footprint words_per_substring := by
      rw [← Option.some_inj.1 h]
      exact Nat.min_le_right _ _
    have h1 : chunk * per_record_footprint words_per_substring ≤
        free_bytes * safety_num / safety_den :=
      (Nat.le_div_iff_mul_le
        (per_record_footprint_pos words_per_substring)).1 hchunk
    exact ⟨h1, h1.trans (budget_le_free free_bytes)⟩
  · exact absurd h (by simp)

/-- Witness for C5: with 100 free bytes, one-word records and a batch of 5,
the planner authorizes a chunk of 5 whose footprint fits the budget. -/
theorem budget_plan_within_budget_witness :
    5 * per_record_footprint 1 ≤ 100 * safety_num / safety_den ∧
      5 * per_record_footprint 1 ≤ 100 :=
  budget_plan_within_budget 100 1 5 5 (by decide)

/-- Claim C6: the Budget Planner is deterministic — equal inputs give the
identical outcome (the same `chunk_size` or the same
`InsufficientDeviceMemory` result). -/
theorem budget_plan_deterministic (f1 w1 n1 f2 w2 n2 : Nat)
    (hf : f1 = f2) (hw : w1 = w2) (hn : n1 = n2) :
    budget_plan f1 w1 n1 = budget_plan f2 w2 n2 := by
  rw [hf, hw, hn]

/-- Witness for C6 at a concrete repeated call. -/
theorem budget_plan_deterministic_witness :
    budget_plan 100 1 5 = budget_plan 100 1 5 :=
  budget_plan_deterministic 100 1 5 100 1 5 rfl rfl rfl

/-- Claim C7: boundary behaviour — a call with `lv2_num_items == 0` returns
without error and without writing any permutation entry, and a call with
`lv2_num_items == 1` (when the planner admits it) returns with
`permutation[0] == 0`. -/
theorem lv2_gpu_sort_call_boundary (free_bytes words_per_substring : Nat)
    (bufs : SortBuffers) :
    (bufs.lv2_substrings = [] →
        lv2_gpu_sort_call free_bytes words_per_substring bufs = (none, bufs)) ∧
      ∀ r chunk, bufs.lv2_substrings = [r] →
        budget_plan free_bytes words_per_substring 1 = some chunk →
        (lv2_gpu_sort_call free_bytes words_per_substring bufs).1 = none ∧
          (lv2_gpu_sort_call free_bytes words_per_substring
            bufs).2.permutation = [0] := by
  constructor
  · intro h
    simp [lv2_gpu_sort_call, h]
  · intro r chunk hr hplan
    have hemp : bufs.lv2_substrings.isEmpty = false := by rw [hr]; rfl
    have hlen : bufs.lv2_substrings.length = 1 := by rw [hr]; rfl
    have hsort : lv2_gpu_sort bufs.lv2_substrings = [0] := by rw [hr]; rfl
    rw [lv2_gpu_sort_call, if_neg (by simp [hemp]), hlen, hplan]
    exact ⟨rfl, by simp [hsort]⟩

/-- Witness for C7: the empty batch is a no-op and a singleton batch yields
the permutation `[0]`. -/
theorem lv2_gpu_sort_call_boundary_witness :
    lv2_gpu_sort_call 100 1 ⟨[], [7]⟩ = (none, ⟨[], [7]⟩) ∧
      (lv2_gpu_sort_call 100 1 ⟨[[3]], [7]⟩).2.permutation = [0] :=
  ⟨(lv2_gpu_sort_call_boundary 100 1 ⟨[], [7]⟩).1 rfl,
    ((lv2_gpu_sort_call_boundary 100 1 ⟨[[3]], [7]⟩).2 [3] 1 rfl
      (by decide)).2⟩

/-- Claim C8: on the concrete batch of 4 one-word records with key values
`[5, 1, 4, 1]`, the sort produces the index-stable permutation
`[1, 3, 2, 0]`. -/
theorem lv2_gpu_sort_scenario :
    lv2_gpu_sort [[5], [1], [4], [1]] = [1, 3, 2, 0] := by decide

/-- Claim C9: when the observed free memory is below the device footprint of
a single record, a call on a non-empty batch signals
`InsufficientDeviceMemory` and leaves both caller buffers untouched (no
partial permutation is written). -/
theorem lv2_gpu_sort_call_insufficient (free_bytes words_per_substring : Nat)
    (bufs : SortBuffers) (hne : bufs.lv2_substrings ≠ [])
    (hlow : free_bytes < per_record_footprint words_per_substring) :
    lv2_gpu_sort_call free_bytes words_per_substring bufs =
      (some SortError.InsufficientDeviceMemory, bufs) := by
  have hbudget : free_bytes * safety_num / safety_den <
      per_record_footprint words_per_substring :=
    lt_of_le_of_lt (budget_le_free free_bytes) hlow
  have hdiv : free_bytes * safety_num / safety_den /
      per_record_footprint words_per_substring = 0 :=
    Nat.div_eq_of_lt hbudget
  have hplan : budget_plan free_bytes words_per_substring
      bufs.lv2_substrings.length = none := by
    simp [budget_plan, hdiv]
  have hemp : bufs.lv2_substrings.isEmpty = false := by
    simpa [List.isEmpty_iff] using hne
  rw [lv2_gpu_sort_call, if_neg (by simp [hemp]), hplan]

/-- Witness for C9: 3 free bytes cannot hold the 12-byte footprint of one
one-word record, so the call errors out and the buffers are unchanged. -/
theorem lv2_gpu_sort_call_insufficient_witness :
    lv2_gpu_sort_call 3 1 ⟨[[3]], [7]⟩ =
      (some SortError.InsufficientDeviceMemory, ⟨[[3]], [7]⟩) :=
  lv2_gpu_sort_call_insufficient 3 1 ⟨[[3]], [7]⟩ (by decide) (by decide)

/-- Claim C10: the header types the batch size as `int64_t` but each
permutation entry as `uint32_t`, so a permutation output naming every
original index exists precisely when the batch has at most `2^32` records;
for any larger batch some original index is unrepresentable. -/
theorem uint32_permutation_representable_iff (n : Nat) :
    (∃ p : List Nat, names_all_indices n p) ↔ n ≤ uint32_card := by
  constructor
  · rintro ⟨p, _, hrep, hall⟩
    by_contra h
    push_neg at h
    exact Nat.lt_irrefl uint32_card (hrep _ (hall uint32_card h))
  · intro h
    exact ⟨List.range n, List.length_range n,
      fun x hx => lt_of_lt_of_le (List.mem_range.1 hx) h,
      fun i hi => List.mem_range.2 hi⟩

end Megahit
